import Mathlib

/-!
Verification of `starlarkgroup` (Go package, file `starlarkgroup.go`, the
variant recording lazy calls) against its natural-language specification.

The shallow embedding below translates the Go source into Lean:

* Starlark values (`Value`) carry an explicit `frozen` flag on mutable
  containers; `Value.freeze` mirrors starlark-go's deep `Freeze`, and
  `listAppend` mirrors `starlark.List.Append`'s `checkMutable` guard.
* `Group` mirrors the `Group` struct.  The Go `context.Context` is embedded
  as the boolean `ctxCancelled` (the result of `g.ctx.Err() != nil` at the
  observation point).  In-place mutation (`args.Freeze()`, appending to
  `g.calls`) is embedded by returning the post-call state: `group_go`
  returns the updated group together with the caller-visible argument
  values — the positional ones frozen in place, the keyword ones untouched
  because the source rebinds its `kwargs` variable to a fresh slice of nil
  tuples before running the freeze loop.
* Concurrency in `group_wait` is embedded by explicit oracles: `grant i`
  is the outcome of `g.limiter.Wait(g.ctx)` before dispatching call `i`
  (`.ok ()` = token granted, `.error e` = the context was cancelled and the
  limiter returned error `e`); `sendOk i` tells whether the queue send for
  call `i` succeeds (`false` = the `ctx.Done()` branch of the `select`
  fires).  Task bodies run concurrently and finish in an arbitrary order;
  that order is the explicit parameter `order` (a permutation of the
  dispatched indices).  `errgroup.Group.Wait` returns the first non-nil
  error in completion order (`firstError`), and each task writes its own
  result slot `elems[i]` (`writeSlots`).
* Builtin callables are embedded as identifiers (`Value.builtin id`); a
  semantics environment `sem : Sem` gives each identifier's behaviour when
  invoked with positional and keyword arguments, mirroring `starlark.Call`.
-/

set_option maxRecDepth 10000

namespace Starlarkgroup

/-- Starlark values, as needed by the group: `list` is the mutable container
(carrying starlark-go's `frozen` flag), `tuple` is immutable but freezing a
tuple freezes its elements, `builtin` is a callable referenced by identifier. -/
inductive Value where
  | none
  | bool (b : Bool)
  | int (n : Int)
  | str (s : String)
  | list (frozen : Bool) (elems : List Value)
  | tuple (elems : List Value)
  | builtin (id : Nat)

instance : Inhabited Value := ⟨Value.none⟩

mutual

/-- Deep freeze of a value, mirroring starlark-go `Value.Freeze`:
`List.Freeze` sets the frozen flag and freezes the elements, `Tuple.Freeze`
freezes the elements, scalars are no-ops. -/
def Value.freeze : Value → Value
  | .none => .none
  | .bool b => .bool b
  | .int n => .int n
  | .str s => .str s
  | .list _ es => .list true (freezeList es)
  | .tuple es => .tuple (freezeList es)
  | .builtin id => .builtin id

/-- Pointwise deep freeze of a list of values (the loop in `Tuple.Freeze`,
and the `for _, kwarg := range kwargs { kwarg.Freeze() }` loop). -/
def freezeList : List Value → List Value
  | [] => []
  | v :: vs => v.freeze :: freezeList vs

end

mutual

/-- A value is deep-frozen when every mutable container inside it has its
frozen flag set. -/
def Value.deepFrozen : Value → Bool
  | .none => true
  | .bool _ => true
  | .int _ => true
  | .str _ => true
  | .list f es => f && allFrozen es
  | .tuple es => allFrozen es
  | .builtin _ => true

/-- Every value in the list is deep-frozen. -/
def allFrozen : List Value → Bool
  | [] => true
  | v :: vs => v.deepFrozen && allFrozen vs

end

/-- Mutation of a list value, mirroring `starlark.List.Append` guarded by
`checkMutable`: appending to a frozen list fails. -/
def listAppend (l v : Value) : Except String Value :=
  match l with
  | .list true _ => .error "cannot append to frozen list"
  | .list false es => .ok (.list false (es ++ [v]))
  | _ => .error "not a list"

/-- The `starlark.Callable` type assertion `args[0].(starlark.Callable)`. -/
def Value.isCallable : Value → Bool
  | .builtin _ => true
  | _ => false

/-- Starlark type name, standing in for Go's `%T` in the error message of
`group_go` (the exact text is not semantically relevant). -/
def Value.typeName : Value → String
  | .none => "NoneType"
  | .bool _ => "bool"
  | .int _ => "int"
  | .str _ => "string"
  | .list _ _ => "list"
  | .tuple _ => "tuple"
  | .builtin _ => "builtin"

/-- A recorded call, mirroring `type callable struct { fn; args; kwargs }`.
Keyword arguments are embedded as plain values (each one a pair tuple in
starlark-go). -/
structure CallRec where
  fn : Value
  args : List Value
  kwargs : List Value

/-- The rate limit carried by the group's limiter, mirroring `rate.Limit`:
either infinite or one event per `interval` nanoseconds (Go stores the
reciprocal `1/interval.Seconds()` as a float64; the interval itself is kept
here, which determines it). -/
inductive RateLimit where
  | inf
  | perInterval (interval : Int)

/-- `rate.Every` from golang.org/x/time/rate: a non-positive interval yields
the infinite rate. -/
def rateEvery (interval : Int) : RateLimit :=
  if interval ≤ 0 then .inf else .perInterval interval

/-- The `Group` struct.  `ctxCancelled` embeds `g.ctx.Err() != nil`. -/
structure Group where
  ctxCancelled : Bool
  frozen : Bool
  n : Int
  limit : RateLimit
  burst : Int
  calls : List CallRec

/-- `NewGroup(ctx, n, r, b)`: a fresh unfrozen group with no recorded calls.
The Go struct literal sets only `ctx`, `group` and `limiter`, omitting the
`n` field, so the stored cap is the zero value `0` and the `n` parameter is
dropped (the source's construction path never yields a pooled group). -/
def NewGroup (ctxCancelled : Bool) (_n : Int) (r : RateLimit) (b : Int) : Group :=
  { ctxCancelled := ctxCancelled, frozen := false, n := 0, limit := r,
    burst := b, calls := [] }

/-- Result of a successful `group_go` call.  Go mutates in place: the
receiver gains the recorded call, and `args.Freeze()` freezes the caller's
argument objects; the embedding returns the post-call group together with
the caller-visible argument values.  `callerKwargs` is the caller's keyword
slice after the call: unchanged, because `group_go` rebinds its local
`kwargs` variable to a fresh slice and never touches the caller's tuples. -/
structure GoResult where
  g : Group
  ret : Value
  callerArgs : List Value
  callerKwargs : List Value

/-- `group_go` from `starlarkgroup.go`: check for a callable first argument,
reject when frozen, deep-freeze the positional args, silently drop the call
when the bound context is already cancelled, otherwise record
`{fn, args[1:], kwargs}` and return `None`.  The kwargs block first rebinds
`kwargs = make([]starlark.Tuple, len(kwargs))` and only then runs the
freeze loop, so the loop ranges over the fresh slice of nil tuples: the
caller's keyword tuples are never frozen, and the recorded call stores
`len(kwargs)` nil tuples (a nil `starlark.Tuple` is the empty tuple). -/
def group_go (g : Group) (args kwargs : List Value) : Except String GoResult :=
  match args with
  | [] => .error "group.go: missing function arg"
  | fn :: _ =>
    if fn.isCallable = false then
      .error ("group.go: expected callable got " ++ fn.typeName)
    else if g.frozen then
      .error "group: frozen"
    else
      let fargs := freezeList args
      let fkwargs := freezeList (List.replicate kwargs.length (Value.tuple []))
      if g.ctxCancelled then
        .ok ⟨g, .none, fargs, kwargs⟩
      else
        .ok ⟨{ g with calls := g.calls ++ [⟨fn, fargs.drop 1, fkwargs⟩] },
             .none, fargs, kwargs⟩

/-- Behaviour environment for builtin callables: what `starlark.Call` returns
when invoking the builtin with the given positional and keyword arguments. -/
abbrev Sem := Nat → List Value → List Value → Except String Value

/-- Invoke a recorded call under the semantics environment, mirroring
`starlark.Call(thread, fn, args, kwargs)`. -/
def semCall (sem : Sem) (c : CallRec) : Except String Value :=
  match c.fn with
  | .builtin id => sem id c.args c.kwargs
  | _ => .error "invalid call of non-function"

/-- The value produced by a successfully completing call (used only when the
call's invocation succeeds). -/
def taskValue (sem : Sem) (c : CallRec) : Value :=
  match semCall sem c with
  | .ok v => v
  | .error _ => Value.none

/-- Observable effects of the dispatch loop of `group_wait`: which call
indices were handed to the errgroup (directly or via the queue) in admission
order, how many pooled worker goroutines were started, how many per-item
goroutines were started on the uncapped path, and whether the queue channel
was allocated. -/
structure DispatchState where
  dispatched : List Nat
  workers : Nat
  direct : Nat
  queueCreated : Bool

/-- Outcome of the dispatch loop: the effects that happened, plus the error
that aborted the loop (if any). -/
structure DispatchOut where
  st : DispatchState
  err : Option String

/-- The `for i, v := range g.calls` loop of `group_wait`: admit call `i`
through `g.limiter.Wait(g.ctx)` (`grant i`); on the uncapped path start a
goroutine per call; on the capped path allocate the queue at `i = 0`, start
a pooled worker while `i < g.n`, then send the closure on the queue (the
`select` aborts with the context error if `sendOk i` is false). -/
def dispatchLoop (n : Int) (grant : Nat → Except String Unit)
    (sendOk : Nat → Bool) : List CallRec → Nat → DispatchState → DispatchOut
  | [], _, st => ⟨st, Option.none⟩
  | _ :: rest, i, st =>
    match grant i with
    | .error e => ⟨st, some e⟩
    | .ok _ =>
      if n ≤ 0 then
        dispatchLoop n grant sendOk rest (i + 1)
          { st with dispatched := st.dispatched ++ [i], direct := st.direct + 1 }
      else
        let st1 := if i = 0 then { st with queueCreated := true } else st
        let st2 := if (i : Int) < n then { st1 with workers := st1.workers + 1 } else st1
        if sendOk i then
          dispatchLoop n grant sendOk rest (i + 1)
            { st2 with dispatched := st2.dispatched ++ [i] }
        else
          ⟨st2, some "context canceled"⟩

/-- The dispatch loop as started by `group_wait`: from index 0 with no
effects yet. -/
def waitDispatch (g : Group) (grant : Nat → Except String Unit)
    (sendOk : Nat → Bool) : DispatchOut :=
  dispatchLoop g.n grant sendOk g.calls 0 ⟨[], 0, 0, false⟩

/-- `errgroup.Group.Wait`: the first non-nil error observed, scanning the
task results in completion order. -/
def firstError (sem : Sem) (calls : List CallRec) : List Nat → Option String
  | [] => Option.none
  | i :: rest =>
    match calls[i]? with
    | some c =>
      match semCall sem c with
      | .error e => some e
      | .ok _ => firstError sem calls rest
    | Option.none => firstError sem calls rest

/-- One completing task's effect on the result-slot array: call `i` writes
its own slot `elems[i] = v` on success and writes nothing on failure. -/
def writeSlot (sem : Sem) (calls : List CallRec) (elems : List (Option Value))
    (i : Nat) : List (Option Value) :=
  match calls[i]? with
  | some c =>
    match semCall sem c with
    | .ok v => elems.set i (some v)
    | .error _ => elems
  | Option.none => elems

/-- The result-slot array `elems`: starting from `len(g.calls)` empty slots,
each completing call writes its own slot, in completion order. -/
def writeSlots (sem : Sem) (calls : List CallRec) (order : List Nat) :
    List (Option Value) :=
  order.foldl (writeSlot sem calls) (List.replicate calls.length Option.none)

/-- `group_wait` from `starlarkgroup.go`: reject when frozen, freeze the
group, run the dispatch loop (aborting with the limiter/context error if
admission fails), then join via `errgroup.Wait` — returning the first error
in completion order, or on full success the tuple of result slots in
registration order. -/
def group_wait (sem : Sem) (grant : Nat → Except String Unit)
    (sendOk : Nat → Bool) (order : List Nat) (g : Group) :
    Group × Except String Value :=
  if g.frozen then
    (g, .error "group.wait: frozen")
  else
    ({ g with frozen := true },
      match (waitDispatch g grant sendOk).err with
      | some e => .error e
      | Option.none =>
        match firstError sem g.calls order with
        | some e => .error e
        | Option.none =>
          .ok (.tuple ((writeSlots sem g.calls order).map
            (fun o => o.getD Value.none))))

/-! ### `Make`: constructing a group, including Go's `time.ParseDuration` -/

/-- Go `quote` as used in `time` error messages (printable characters only;
escaping of non-printables is not modelled). -/
def quoteStr (s : String) : String := "\"" ++ s ++ "\""

/-- The `errors.New("time: invalid duration " + quote(orig))` message. -/
def invalidDurationMsg (orig : String) : String :=
  "time: invalid duration " ++ quoteStr orig

/-- `leadingInt` from Go `time`: consume leading digits into `x`,
mirroring the uint64 overflow guards (`x > 1<<63/10`, `x > 1<<63`). -/
def leadingInt : Nat → List Char → Except String (Nat × List Char)
  | x, [] => .ok (x, [])
  | x, c :: rest =>
    if c < '0' ∨ '9' < c then .ok (x, c :: rest)
    else if x > 2 ^ 63 / 10 then .error "time: bad [0-9]*"
    else
      let x' := x * 10 + (c.toNat - '0'.toNat)
      if x' > 2 ^ 63 then .error "time: bad [0-9]*"
      else leadingInt x' rest

/-- `leadingFraction` from Go `time`: consume digits after the decimal
point, tracking the scale, ignoring digits once the value would overflow.
Go carries `scale` as a float64 power of ten; it is kept exactly here. -/
def leadingFraction : Nat → Nat → Bool → List Char → Nat × Nat × List Char
  | x, scale, _, [] => (x, scale, [])
  | x, scale, overflow, c :: rest =>
    if c < '0' ∨ '9' < c then (x, scale, c :: rest)
    else if overflow then leadingFraction x scale true rest
    else if x > (2 ^ 63 - 1) / 10 then leadingFraction x scale true rest
    else
      let y := x * 10 + (c.toNat - '0'.toNat)
      if y > 2 ^ 63 then leadingFraction x scale true rest
      else leadingFraction y (scale * 10) false rest

/-- The `unitMap` of Go `time.ParseDuration`, in nanoseconds. -/
def unitMap : List Char → Option Nat
  | ['n', 's'] => some 1
  | ['u', 's'] => some 1000
  | ['µ', 's'] => some 1000
  | ['μ', 's'] => some 1000
  | ['m', 's'] => some 1000000
  | ['s'] => some 1000000000
  | ['m'] => some 60000000000
  | ['h'] => some 3600000000000
  | _ => Option.none

/-- Length of the leading unit segment: characters up to the next digit or
decimal point (the `for ; i < len(s); i++` unit scan). -/
def unitLen : List Char → Nat
  | [] => 0
  | c :: rest =>
    if c = '.' ∨ ('0' ≤ c ∧ c ≤ '9') then 0 else 1 + unitLen rest

/-- The `for s != ""` loop of `time.ParseDuration`, consuming one
`[0-9]*(\.[0-9]*)?unit` item per iteration and accumulating nanoseconds in
`d` with the uint64 overflow guards of the Go source.  Each non-failing
iteration consumes at least one character, so with `fuel` initialised to
`length + 1` the fuel-exhausted branch is unreachable.  Go computes the
fractional contribution `float64(f) * (float64(unit)/scale)` in float64;
it is embedded as the exact `f * unit / scale` (no claim exercises a
fractional duration). -/
def parseDurationLoop (orig : String) : Nat → Nat → List Char → Except String Nat
  | _, d, [] => .ok d
  | 0, _, _ => .error (invalidDurationMsg orig)
  | fuel + 1, d, c :: cs =>
    if ¬(c = '.' ∨ ('0' ≤ c ∧ c ≤ '9')) then .error (invalidDurationMsg orig)
    else
      match leadingInt 0 (c :: cs) with
      | .error _ => .error (invalidDurationMsg orig)
      | .ok (v, s1) =>
        let pre : Bool := s1.length ≠ (c :: cs).length
        let fr : Nat × Nat × List Char × Bool :=
          match s1 with
          | '.' :: t =>
            let r := leadingFraction 0 1 false t
            (r.1, r.2.1, r.2.2, decide (r.2.2.length ≠ t.length))
          | _ => (0, 1, s1, false)
        let f := fr.1
        let scale := fr.2.1
        let s2 := fr.2.2.1
        let post := fr.2.2.2
        if pre = false ∧ post = false then .error (invalidDurationMsg orig)
        else
          let i := unitLen s2
          if i = 0 then
            .error ("time: missing unit in duration " ++ quoteStr orig)
          else
            match unitMap (s2.take i) with
            | Option.none =>
              .error ("time: unknown unit " ++ quoteStr (String.mk (s2.take i)) ++
                " in duration " ++ quoteStr orig)
            | some unit =>
              if v > 2 ^ 63 / unit then .error (invalidDurationMsg orig)
              else
                let v1 := v * unit
                let v2 := if f > 0 then v1 + f * unit / scale else v1
                if f > 0 ∧ v2 > 2 ^ 63 then .error (invalidDurationMsg orig)
                else if d + v2 > 2 ^ 63 then .error (invalidDurationMsg orig)
                else parseDurationLoop orig fuel (d + v2) (s2.drop i)

/-- Go `time.ParseDuration`, returning the duration in nanoseconds. -/
def parseDuration (s : String) : Except String Int :=
  let cs := s.data
  let signed : Bool × List Char :=
    match cs with
    | '-' :: t => (true, t)
    | '+' :: t => (false, t)
    | _ => (false, cs)
  let neg := signed.1
  let body := signed.2
  if body = ['0'] then .ok 0
  else if body = [] then .error (invalidDurationMsg s)
  else
    match parseDurationLoop s (body.length + 1) 0 body with
    | .error e => .error e
    | .ok d =>
      if neg then .ok (-(d : Int))
      else if d > 2 ^ 63 - 1 then .error (invalidDurationMsg s)
      else .ok (d : Int)

/-- `Make` from `starlarkgroup.go`: unpack `n`, `every`, `burst` (embedded
as typed parameters), default to the infinite rate, parse a non-empty
`every` into a duration — a parse failure is returned to the caller — and
convert it with `rate.Every`; the thread-local context is embedded as
`ctxCancelled`. -/
def Make (ctxCancelled : Bool) (n : Int) (every : String) (burst : Int) :
    Except String Group :=
  if every = "" then .ok (NewGroup ctxCancelled n .inf burst)
  else
    match parseDuration every with
    | .error e => .error e
    | .ok d => .ok (NewGroup ctxCancelled n (rateEvery d) burst)

/-! ### Helper lemmas -/

mutual

theorem Value.freeze_deepFrozen : (v : Value) → v.freeze.deepFrozen = true
  | .none => rfl
  | .bool _ => rfl
  | .int _ => rfl
  | .str _ => rfl
  | .builtin _ => rfl
  | .list _ es => by
    simp [Value.freeze, Value.deepFrozen, freezeList_allFrozen es]
  | .tuple es => by
    simp [Value.freeze, Value.deepFrozen, freezeList_allFrozen es]

theorem freezeList_allFrozen : (es : List Value) → allFrozen (freezeList es) = true
  | [] => rfl
  | v :: vs => by
    simp [freezeList, allFrozen, Value.freeze_deepFrozen v, freezeList_allFrozen vs]

end

theorem semCall_isOk_eq (sem : Sem) (c : CallRec)
    (h : (semCall sem c).isOk = true) : semCall sem c = .ok (taskValue sem c) := by
  unfold taskValue
  cases hsc : semCall sem c with
  | ok v => rfl
  | error e => rw [hsc] at h; simp [Except.isOk, Except.toBool] at h

theorem length_writeSlot (sem : Sem) (calls : List CallRec)
    (elems : List (Option Value)) (i : Nat) :
    (writeSlot sem calls elems i).length = elems.length := by
  cases hc : calls[i]? with
  | none => simp [writeSlot, hc]
  | some c => cases hsc : semCall sem c <;> simp [writeSlot, hc, hsc]

theorem length_foldl_writeSlot (sem : Sem) (calls : List CallRec) :
    ∀ (order : List Nat) (elems : List (Option Value)),
    (order.foldl (writeSlot sem calls) elems).length = elems.length := by
  intro order
  induction order with
  | nil => intro elems; rfl
  | cons i rest ih =>
    intro elems
    rw [List.foldl_cons, ih, length_writeSlot]

theorem foldl_writeSlot_not_mem (sem : Sem) (calls : List CallRec) (j : Nat) :
    ∀ (order : List Nat) (elems : List (Option Value)), j ∉ order →
    (order.foldl (writeSlot sem calls) elems)[j]? = elems[j]? := by
  intro order
  induction order with
  | nil => intro elems _; rfl
  | cons i rest ih =>
    intro elems hj
    have hji : j ≠ i := fun h => hj (h ▸ List.mem_cons_self i rest)
    have hrest : j ∉ rest := fun h => hj (List.mem_cons_of_mem i h)
    rw [List.foldl_cons, ih _ hrest]
    cases hc : calls[i]? with
    | none => simp [writeSlot, hc]
    | some c =>
      cases hsc : semCall sem c with
      | ok v =>
        simp only [writeSlot, hc, hsc]
        exact List.getElem?_set_ne (Ne.symm hji)
      | error e => simp [writeSlot, hc, hsc]

theorem foldl_writeSlot_mem (sem : Sem) (calls : List CallRec)
    (hok : ∀ c ∈ calls, (semCall sem c).isOk = true) (j : Nat)
    (hj : j < calls.length) :
    ∀ (order : List Nat) (elems : List (Option Value)),
    elems.length = calls.length → j ∈ order →
    (order.foldl (writeSlot sem calls) elems)[j]? =
      some (some (taskValue sem calls[j])) := by
  intro order
  induction order with
  | nil => intro elems _ hmem; exact absurd hmem (List.not_mem_nil j)
  | cons i rest ih =>
    intro elems hlen hmem
    rw [List.foldl_cons]
    by_cases hr : j ∈ rest
    · exact ih _ (by rw [length_writeSlot]; exact hlen) hr
    · have hij : j = i := by
        rcases List.mem_cons.mp hmem with h | h
        · exact h
        · exact absurd h hr
      subst hij
      rw [foldl_writeSlot_not_mem sem calls j rest _ hr]
      simp only [writeSlot, List.getElem?_eq_getElem hj,
        semCall_isOk_eq sem _ (hok _ (List.getElem_mem hj))]
      exact List.getElem?_set_self (by rw [hlen]; exact hj)

theorem writeSlots_eq_map (sem : Sem) (calls : List CallRec) (order : List Nat)
    (hok : ∀ c ∈ calls, (semCall sem c).isOk = true)
    (hperm : order.Perm (List.range calls.length)) :
    writeSlots sem calls order = calls.map (fun c => some (taskValue sem c)) := by
  apply List.ext_getElem?
  intro j
  by_cases hj : j < calls.length
  · have hmem : j ∈ order := hperm.mem_iff.mpr (List.mem_range.mpr hj)
    rw [writeSlots,
      foldl_writeSlot_mem sem calls hok j hj order _ (List.length_replicate _ _) hmem,
      List.getElem?_map, List.getElem?_eq_getElem hj]
    rfl
  · have hlen : calls.length ≤ j := Nat.le_of_not_lt hj
    rw [writeSlots, List.getElem?_eq_none, List.getElem?_eq_none]
    · rw [List.length_map]; exact hlen
    · rw [length_foldl_writeSlot, List.length_replicate]; exact hlen

theorem firstError_eq_none (sem : Sem) (calls : List CallRec)
    (hok : ∀ c ∈ calls, (semCall sem c).isOk = true) :
    ∀ order : List Nat, firstError sem calls order = Option.none := by
  intro order
  induction order with
  | nil => rfl
  | cons i rest ih =>
    rw [firstError]
    cases hc : calls[i]? with
    | none => simpa using ih
    | some c =>
      cases hsc : semCall sem c with
      | ok v => simpa [hsc] using ih
      | error e =>
        have := hok c (List.getElem?_mem hc)
        rw [hsc] at this
        simp [Except.isOk, Except.toBool] at this

theorem firstError_isSome_of_bad (sem : Sem) (calls : List CallRec)
    (order : List Nat) (hperm : order.Perm (List.range calls.length))
    (hbad : ∃ c ∈ calls, (semCall sem c).isOk = false) :
    ∃ e, firstError sem calls order = some e := by
  obtain ⟨c, hc, hbadc⟩ := hbad
  obtain ⟨j, hj, hcj⟩ := List.getElem_of_mem hc
  have hjord : j ∈ order := hperm.mem_iff.mpr (List.mem_range.mpr hj)
  clear hperm hc
  induction order with
  | nil => exact absurd hjord (List.not_mem_nil j)
  | cons i rest ih =>
    rw [firstError]
    cases hci : calls[i]? with
    | none =>
      have hr : j ∈ rest := by
        rcases List.mem_cons.mp hjord with h | h
        · subst h; rw [List.getElem?_eq_getElem hj, hcj] at hci; cases hci
        · exact h
      simpa using ih hr
    | some c' =>
      cases hsc : semCall sem c' with
      | error e => exact ⟨e, by simp [hsc]⟩
      | ok v =>
        have hr : j ∈ rest := by
          rcases List.mem_cons.mp hjord with h | h
          · subst h
            rw [List.getElem?_eq_getElem hj, hcj] at hci
            cases hci
            rw [hsc] at hbadc
            simp [Except.isOk, Except.toBool] at hbadc
          · exact h
        simpa [hsc] using ih hr

theorem dispatchLoop_uncapped (n : Int) (grant : Nat → Except String Unit)
    (sendOk : Nat → Bool) (hn : n ≤ 0) (hadm : ∀ i, grant i = .ok ()) :
    ∀ (l : List CallRec) (i : Nat) (st : DispatchState),
    dispatchLoop n grant sendOk l i st =
      ⟨⟨st.dispatched ++ List.range' i l.length, st.workers,
        st.direct + l.length, st.queueCreated⟩, Option.none⟩ := by
  intro l
  induction l with
  | nil => intro i st; simp [dispatchLoop]
  | cons c rest ih =>
    intro i st
    rw [dispatchLoop, hadm i]
    simp only [if_pos hn]
    rw [ih]
    simp [List.range'_succ]
    omega

theorem dispatchLoop_capped (n : Int) (grant : Nat → Except String Unit)
    (sendOk : Nat → Bool) (hn : 0 < n) (hadm : ∀ i, grant i = .ok ())
    (hsend : ∀ i, sendOk i = true) :
    ∀ (l : List CallRec) (i : Nat) (st : DispatchState),
    dispatchLoop n grant sendOk l i st =
      ⟨⟨st.dispatched ++ List.range' i l.length,
        st.workers + (min n.toNat (i + l.length) - min n.toNat i),
        st.direct,
        st.queueCreated || (decide (i = 0) && decide (l.length ≠ 0))⟩,
        Option.none⟩ := by
  intro l
  induction l with
  | nil => intro i st; simp [dispatchLoop]
  | cons c rest ih =>
    intro i st
    have hn' : ¬ n ≤ 0 := by omega
    rw [dispatchLoop, hadm i]
    simp only [if_neg hn', hsend i, if_pos]
    rw [ih]
    by_cases hi : i = 0 <;> by_cases hw : (i : Int) < n <;>
      simp [hi, hw, List.range'_succ, List.append_assoc] <;>
      simp [Nat.min_def] <;> split_ifs <;> (try simp) <;> omega

theorem dispatchLoop_abort (n : Int) (grant : Nat → Except String Unit)
    (sendOk : Nat → Bool) (k : Nat) (e : String)
    (hsend : ∀ i, sendOk i = true) :
    ∀ (l : List CallRec) (i : Nat) (st : DispatchState),
      i ≤ k → k < i + l.length →
      (∀ j, i ≤ j → j < k → grant j = .ok ()) →
      grant k = .error e →
      (dispatchLoop n grant sendOk l i st).err = some e ∧
      (dispatchLoop n grant sendOk l i st).st.dispatched =
        st.dispatched ++ List.range' i (k - i) := by
  intro l
  induction l with
  | nil =>
    intro i st hik hk _ _
    simp only [List.length_nil] at hk
    exact absurd hk (by omega)
  | cons c rest ih =>
    intro i st hik hk hadm hke
    have hk' : k < i + rest.length + 1 := by
      simp only [List.length_cons] at hk
      omega
    by_cases hieq : i = k
    · subst hieq
      rw [dispatchLoop, hke]
      simp
    · have hilt : i < k := Nat.lt_of_le_of_ne hik hieq
      have hksub : k - i = (k - (i + 1)) + 1 := by omega
      rw [dispatchLoop, hadm i (Nat.le_refl i) hilt]
      by_cases hn : n ≤ 0
      · simp only [if_pos hn]
        have hrec := ih (i + 1)
          { st with dispatched := st.dispatched ++ [i], direct := st.direct + 1 }
          (by omega) (by omega)
          (fun j hj hjk => hadm j (by omega) hjk) hke
        rw [hksub, List.range'_succ]
        simpa [List.append_assoc] using hrec
      · simp only [if_neg hn, hsend i, if_pos]
        set st1 := if i = 0 then { st with queueCreated := true } else st with hst1
        set st2 := if (i : Int) < n then { st1 with workers := st1.workers + 1 }
          else st1 with hst2
        have hd2 : st2.dispatched = st.dispatched := by
          simp only [hst2, hst1]
          split_ifs <;> rfl
        have hrec := ih (i + 1) { st2 with dispatched := st2.dispatched ++ [i] }
          (by omega) (by omega)
          (fun j hj hjk => hadm j (by omega) hjk) hke
        rw [hksub, List.range'_succ]
        refine ⟨hrec.1, ?_⟩
        rw [hrec.2, hd2, List.append_assoc]
        rfl

theorem waitDispatch_ok (g : Group) (grant : Nat → Except String Unit)
    (sendOk : Nat → Bool) (hadm : ∀ i, grant i = .ok ())
    (hsend : ∀ i, sendOk i = true) :
    (waitDispatch g grant sendOk).err = Option.none := by
  unfold waitDispatch
  rcases le_or_lt g.n 0 with hn | hn
  · rw [dispatchLoop_uncapped g.n grant sendOk hn hadm]
  · rw [dispatchLoop_capped g.n grant sendOk hn hadm hsend]

/-! ### Claim theorems -/

/-- C1: for every group and every sequence of registered calls whose
functions return without error, `wait` returns the tuple whose `i`-th
element is the value returned by the `i`-th registered call — results are
ordered by registration order, for every completion order of the task
bodies (every permutation `order` of the dispatched indices) and every cap. -/
theorem wait_returns_results_in_registration_order
    (g : Group) (sem : Sem) (grant : Nat → Except String Unit)
    (sendOk : Nat → Bool) (order : List Nat)
    (hfr : g.frozen = false)
    (hadm : ∀ i, grant i = .ok ())
    (hsend : ∀ i, sendOk i = true)
    (hperm : order.Perm (List.range g.calls.length))
    (hok : ∀ c ∈ g.calls, (semCall sem c).isOk = true) :
    group_wait sem grant sendOk order g =
      ({ g with frozen := true }, .ok (.tuple (g.calls.map (taskValue sem)))) := by
  unfold group_wait
  rw [if_neg (by simp [hfr])]
  rw [waitDispatch_ok g grant sendOk hadm hsend]
  rw [firstError_eq_none sem g.calls hok order]
  rw [writeSlots_eq_map sem g.calls order hok hperm]
  simp [List.map_map, Function.comp]

/-- Witness for C1: two registered calls, task bodies completing in reversed
order, results still in registration order. -/
theorem wait_returns_results_in_registration_order_witness :
    group_wait (fun id _ _ => .ok (.int (Int.ofNat id)))
      (fun _ => .ok ()) (fun _ => true) [1, 0]
      { ctxCancelled := false, frozen := false, n := 2, limit := .inf,
        burst := 0, calls := [⟨.builtin 0, [], []⟩, ⟨.builtin 1, [], []⟩] } =
      ({ ctxCancelled := false, frozen := true, n := 2, limit := .inf,
         burst := 0, calls := [⟨.builtin 0, [], []⟩, ⟨.builtin 1, [], []⟩] },
        .ok (.tuple [.int 0, .int 1])) :=
  wait_returns_results_in_registration_order _ _ _ _ _ rfl (fun _ => rfl)
    (fun _ => rfl) (by decide) (by decide)

/-- C6: during `wait` the calls are admitted through the rate limiter in
strict registration order; if the limiter wait for call `k` fails because
the context is cancelled, `wait` returns that error at once, having
dispatched exactly the calls before `k` and none of the remaining ones. -/
theorem wait_admits_in_order_and_aborts_on_limiter_error
    (g : Group) (sem : Sem) (grant : Nat → Except String Unit)
    (sendOk : Nat → Bool) (order : List Nat) (k : Nat) (e : String)
    (hfr : g.frozen = false)
    (hk : k < g.calls.length)
    (hadm : ∀ j, j < k → grant j = .ok ())
    (hke : grant k = .error e)
    (hsend : ∀ i, sendOk i = true) :
    group_wait sem grant sendOk order g = ({ g with frozen := true }, .error e) ∧
    (waitDispatch g grant sendOk).st.dispatched = List.range k := by
  have habort := dispatchLoop_abort g.n grant sendOk k e hsend g.calls 0
    ⟨[], 0, 0, false⟩ (Nat.zero_le k) (by omega)
    (fun j _ hj => hadm j hj) hke
  constructor
  · unfold group_wait
    rw [if_neg (by simp [hfr])]
    have : (waitDispatch g grant sendOk).err = some e := habort.1
    rw [this]
  · rw [waitDispatch, habort.2]
    simp [List.range_eq_range']

/-- Witness for C6: limiter grants call 0 and fails for call 1 of a
two-call group; `wait` returns the context error and only call 0 was
dispatched. -/
theorem wait_admits_in_order_and_aborts_on_limiter_error_witness :
    group_wait (fun _ _ _ => .ok .none)
      (fun i => if i = 0 then .ok () else .error "context canceled")
      (fun _ => true) [0, 1]
      { ctxCancelled := false, frozen := false, n := 0, limit := .inf,
        burst := 0, calls := [⟨.builtin 0, [], []⟩, ⟨.builtin 1, [], []⟩] } =
      ({ ctxCancelled := false, frozen := true, n := 0, limit := .inf,
         burst := 0, calls := [⟨.builtin 0, [], []⟩, ⟨.builtin 1, [], []⟩] },
        .error "context canceled") ∧
    (waitDispatch
      { ctxCancelled := false, frozen := false, n := 0, limit := .inf,
        burst := 0, calls := [⟨.builtin 0, [], []⟩, ⟨.builtin 1, [], []⟩] }
      (fun i => if i = 0 then .ok () else .error "context canceled")
      (fun _ => true)).st.dispatched = List.range 1 :=
  wait_admits_in_order_and_aborts_on_limiter_error _ _ _ _ _ 1 _ rfl
    (by decide)
    (fun j hj => by
      have hj0 : j = 0 := by omega
      subst hj0
      rfl)
    rfl (fun _ => rfl)

/-- C7: with all admissions succeeding, a positive cap `N` spawns exactly
`min(N, T)` pooled workers for `T` dispatched calls (lazily, one per
dispatch while the index is below `N`), no per-item tasks, and a queue only
when at least one call is dispatched; a cap `N ≤ 0` spawns one concurrent
task per dispatched call and never creates a queue. -/
theorem worker_pool_spawns_min_cap_total
    (g : Group) (grant : Nat → Except String Unit) (sendOk : Nat → Bool)
    (hadm : ∀ i, grant i = .ok ())
    (hsend : ∀ i, sendOk i = true) :
    (0 < g.n →
      (waitDispatch g grant sendOk).st.workers = min g.n.toNat g.calls.length ∧
      (waitDispatch g grant sendOk).st.direct = 0 ∧
      (waitDispatch g grant sendOk).st.queueCreated =
        decide (g.calls.length ≠ 0)) ∧
    (g.n ≤ 0 →
      (waitDispatch g grant sendOk).st.direct = g.calls.length ∧
      (waitDispatch g grant sendOk).st.workers = 0 ∧
      (waitDispatch g grant sendOk).st.queueCreated = false) := by
  constructor
  · intro hn
    rw [waitDispatch, dispatchLoop_capped g.n grant sendOk hn hadm hsend]
    simp
  · intro hn
    rw [waitDispatch, dispatchLoop_uncapped g.n grant sendOk hn hadm]
    simp

/-- Witness for C7: cap 2 with three calls spawns `min 2 3 = 2` workers and
a queue; cap 0 with three calls spawns three per-item tasks and no queue. -/
theorem worker_pool_spawns_min_cap_total_witness :
    ((0 : Int) < 2 →
      (waitDispatch
        { ctxCancelled := false, frozen := false, n := 2, limit := .inf,
          burst := 0,
          calls := [⟨.builtin 0, [], []⟩, ⟨.builtin 1, [], []⟩,
            ⟨.builtin 2, [], []⟩] }
        (fun _ => .ok ()) (fun _ => true)).st.workers = min (Int.toNat 2) 3 ∧
      (waitDispatch
        { ctxCancelled := false, frozen := false, n := 2, limit := .inf,
          burst := 0,
          calls := [⟨.builtin 0, [], []⟩, ⟨.builtin 1, [], []⟩,
            ⟨.builtin 2, [], []⟩] }
        (fun _ => .ok ()) (fun _ => true)).st.direct = 0 ∧
      (waitDispatch
        { ctxCancelled := false, frozen := false, n := 2, limit := .inf,
          burst := 0,
          calls := [⟨.builtin 0, [], []⟩, ⟨.builtin 1, [], []⟩,
            ⟨.builtin 2, [], []⟩] }
        (fun _ => .ok ()) (fun _ => true)).st.queueCreated =
          decide ((3 : Nat) ≠ 0)) ∧
    ((2 : Int) ≤ 0 →
      (waitDispatch
        { ctxCancelled := false, frozen := false, n := 2, limit := .inf,
          burst := 0,
          calls := [⟨.builtin 0, [], []⟩, ⟨.builtin 1, [], []⟩,
            ⟨.builtin 2, [], []⟩] }
        (fun _ => .ok ()) (fun _ => true)).st.direct = 3 ∧
      (waitDispatch
        { ctxCancelled := false, frozen := false, n := 2, limit := .inf,
          burst := 0,
          calls := [⟨.builtin 0, [], []⟩, ⟨.builtin 1, [], []⟩,
            ⟨.builtin 2, [], []⟩] }
        (fun _ => .ok ()) (fun _ => true)).st.workers = 0 ∧
      (waitDispatch
        { ctxCancelled := false, frozen := false, n := 2, limit := .inf,
          burst := 0,
          calls := [⟨.builtin 0, [], []⟩, ⟨.builtin 1, [], []⟩,
            ⟨.builtin 2, [], []⟩] }
        (fun _ => .ok ()) (fun _ => true)).st.queueCreated = false) :=
  worker_pool_spawns_min_cap_total
    (Group.mk false false 2 .inf 0
      [⟨.builtin 0, [], []⟩, ⟨.builtin 1, [], []⟩, ⟨.builtin 2, [], []⟩])
    _ _ (fun _ => rfl) (fun _ => rfl)

/-- C8: if some registered call's function returns an error, `wait` returns
the first error observed in completion order and no result tuple at all
(all calls were admitted and dispatched; only the error is reported). -/
theorem wait_returns_first_error_without_results
    (g : Group) (sem : Sem) (grant : Nat → Except String Unit)
    (sendOk : Nat → Bool) (order : List Nat)
    (hfr : g.frozen = false)
    (hadm : ∀ i, grant i = .ok ())
    (hsend : ∀ i, sendOk i = true)
    (hperm : order.Perm (List.range g.calls.length))
    (hbad : ∃ c ∈ g.calls, (semCall sem c).isOk = false) :
    ∃ e, firstError sem g.calls order = some e ∧
      group_wait sem grant sendOk order g =
        ({ g with frozen := true }, .error e) := by
  obtain ⟨e, he⟩ := firstError_isSome_of_bad sem g.calls order hperm hbad
  refine ⟨e, he, ?_⟩
  unfold group_wait
  rw [if_neg (by simp [hfr])]
  rw [waitDispatch_ok g grant sendOk hadm hsend]
  rw [he]

/-- Witness for C8: the second of two calls fails; `wait` reports that
error and returns no tuple. -/
theorem wait_returns_first_error_without_results_witness :
    ∃ e, firstError
        (fun id _ _ => if id = 0 then .ok .none else .error "boom")
        [⟨.builtin 0, [], []⟩, ⟨.builtin 1, [], []⟩] [0, 1] = some e ∧
      group_wait (fun id _ _ => if id = 0 then .ok .none else .error "boom")
        (fun _ => .ok ()) (fun _ => true) [0, 1]
        { ctxCancelled := false, frozen := false, n := 0, limit := .inf,
          burst := 0, calls := [⟨.builtin 0, [], []⟩, ⟨.builtin 1, [], []⟩] } =
        ({ ctxCancelled := false, frozen := true, n := 0, limit := .inf,
           burst := 0,
           calls := [⟨.builtin 0, [], []⟩, ⟨.builtin 1, [], []⟩] },
          .error e) :=
  wait_returns_first_error_without_results
    (Group.mk false false 0 .inf 0
      [⟨.builtin 0, [], []⟩, ⟨.builtin 1, [], []⟩])
    (fun id _ _ => if id = 0 then .ok .none else .error "boom")
    (fun _ => .ok ()) (fun _ => true) [0, 1] rfl (fun _ => rfl)
    (fun _ => rfl) (by decide)
    ⟨⟨.builtin 1, [], []⟩, by simp, rfl⟩

/-- Shared fact: after any `wait`, the returned group is frozen. -/
theorem group_wait_freezes (sem : Sem) (grant : Nat → Except String Unit)
    (sendOk : Nat → Bool) (order : List Nat) (g : Group) :
    ((group_wait sem grant sendOk order g).1).frozen = true := by
  unfold group_wait
  by_cases hf : g.frozen
  · rw [if_pos (by simp [hf])]
    exact hf
  · rw [if_neg (by simp [hf])]

/-- Shared fact: `wait` on an already-frozen group fails with the frozen
error and leaves the group as it is. -/
theorem group_wait_frozen (sem : Sem) (grant : Nat → Except String Unit)
    (sendOk : Nat → Bool) (order : List Nat) (g : Group)
    (h : g.frozen = true) :
    group_wait sem grant sendOk order g = (g, .error "group.wait: frozen") := by
  unfold group_wait
  rw [if_pos (by simp [h])]

/-- Freezing the fresh slice of nil tuples is the identity: a nil tuple is
empty, so its freeze is a no-op. -/
theorem freezeList_replicate_nil_tuple (k : Nat) :
    freezeList (List.replicate k (Value.tuple [])) =
      List.replicate k (Value.tuple []) := by
  induction k with
  | zero => rfl
  | succ k ih => simp [List.replicate_succ, freezeList, Value.freeze, ih]

/-- Shared fact: on an unfrozen group with live context, `go` with a
callable first argument records exactly one call — frozen positional
arguments, nil tuples in the keyword slot — and returns `None`, leaving
the caller's keyword values untouched. -/
theorem group_go_records (g : Group) (fn : Value) (rest kwargs : List Value)
    (hfr : g.frozen = false) (hctx : g.ctxCancelled = false)
    (hcall : fn.isCallable = true) :
    group_go g (fn :: rest) kwargs =
      .ok ⟨{ g with calls := g.calls ++
              [⟨fn, freezeList rest,
                List.replicate kwargs.length (Value.tuple [])⟩] },
           .none, freezeList (fn :: rest), kwargs⟩ := by
  simp [group_go, hcall, hfr, hctx, freezeList, freezeList_replicate_nil_tuple]

/-- C2: on an unfrozen group with live context, `go` with a callable first
argument only records the call — appending one call record (the frozen
positional arguments and, as the source stores them, nil tuples in the
keyword slot) and returning `None` immediately without invoking the
function; the recorded function is invoked during a later `wait`, whose
result on the recorded call is the function's own return value. -/
theorem go_only_records_call_and_executes_at_wait
    (g : Group) (fn : Value) (rest kwargs : List Value) (sem : Sem) (v : Value)
    (hfr : g.frozen = false) (hctx : g.ctxCancelled = false)
    (hcall : fn.isCallable = true) :
    group_go g (fn :: rest) kwargs =
      .ok ⟨{ g with calls := g.calls ++
              [⟨fn, freezeList rest,
                List.replicate kwargs.length (Value.tuple [])⟩] },
           .none, freezeList (fn :: rest), kwargs⟩ ∧
    (semCall sem ⟨fn, freezeList rest,
        List.replicate kwargs.length (Value.tuple [])⟩ = .ok v →
      (group_wait sem (fun _ => .ok ()) (fun _ => true) [0]
        { g with calls := [⟨fn, freezeList rest,
            List.replicate kwargs.length (Value.tuple [])⟩] }).2 =
        .ok (.tuple [v])) := by
  refine ⟨group_go_records g fn rest kwargs hfr hctx hcall, ?_⟩
  intro hsem
  unfold group_wait
  rw [if_neg (by simp [hfr])]
  rw [waitDispatch_ok _ _ _ (fun _ => rfl) (fun _ => rfl)]
  simp [firstError, writeSlots, writeSlot, hsem]

/-- Witness for C2: registering `square`-style builtin 5 with argument 7
appends one frozen call and returns `None`; the later `wait` invokes it. -/
theorem go_only_records_call_and_executes_at_wait_witness :
    group_go (NewGroup false 0 .inf 0) [.builtin 5, .int 7] [] =
      .ok ⟨Group.mk false false 0 .inf 0 [⟨.builtin 5, [.int 7], []⟩],
           .none, [.builtin 5, .int 7], []⟩ ∧
    (semCall (fun _ a _ => .ok (.tuple a)) ⟨.builtin 5, [.int 7], []⟩ =
        .ok (.tuple [.int 7]) →
      (group_wait (fun _ a _ => .ok (.tuple a)) (fun _ => .ok ())
        (fun _ => true) [0]
        { NewGroup false 0 .inf 0 with
            calls := [⟨.builtin 5, [.int 7], []⟩] }).2 =
        .ok (.tuple [.tuple [.int 7]])) :=
  go_only_records_call_and_executes_at_wait (NewGroup false 0 .inf 0)
    (.builtin 5) [.int 7] [] (fun _ a _ => .ok (.tuple a)) (.tuple [.int 7])
    rfl rfl rfl

/-- C3: after any `wait` the group is frozen — whether that `wait`
succeeded or returned an error — and on the frozen group a `go` with a
callable first argument fails with the frozen error (recording nothing,
since an erroring `go` leaves no updated group), and a second `wait` fails
with the frozen error. -/
theorem group_frozen_after_wait_rejects_go_and_second_wait
    (g : Group) (sem sem2 : Sem) (grant grant2 : Nat → Except String Unit)
    (sendOk sendOk2 : Nat → Bool) (order order2 : List Nat)
    (fn : Value) (rest kwargs : List Value)
    (hcall : fn.isCallable = true) :
    ((group_wait sem grant sendOk order g).1).frozen = true ∧
    group_go (group_wait sem grant sendOk order g).1 (fn :: rest) kwargs =
      .error "group: frozen" ∧
    (group_wait sem2 grant2 sendOk2 order2
        (group_wait sem grant sendOk order g).1).2 =
      .error "group.wait: frozen" := by
  have hfz := group_wait_freezes sem grant sendOk order g
  refine ⟨hfz, ?_, ?_⟩
  · simp [group_go, hcall, hfz]
  · rw [group_wait_frozen sem2 grant2 sendOk2 order2 _ hfz]

/-- Witness for C3 on a fresh empty group: its `wait` freezes it, after
which `go` and a second `wait` both fail with the frozen errors. -/
theorem group_frozen_after_wait_rejects_go_and_second_wait_witness :
    ((group_wait (fun _ _ _ => .ok .none) (fun _ => .ok ()) (fun _ => true)
        [] (NewGroup false 0 .inf 0)).1).frozen = true ∧
    group_go (group_wait (fun _ _ _ => .ok .none) (fun _ => .ok ())
        (fun _ => true) [] (NewGroup false 0 .inf 0)).1 [.builtin 0] [] =
      .error "group: frozen" ∧
    (group_wait (fun _ _ _ => .ok .none) (fun _ => .ok ()) (fun _ => true) []
        (group_wait (fun _ _ _ => .ok .none) (fun _ => .ok ()) (fun _ => true)
          [] (NewGroup false 0 .inf 0)).1).2 =
      .error "group.wait: frozen" :=
  group_frozen_after_wait_rejects_go_and_second_wait (NewGroup false 0 .inf 0)
    _ _ _ _ _ _ _ _ (.builtin 0) [] [] rfl

/-- C4: the code at the claim's failing input — `go` with one keyword
argument whose value is a mutable list.  The recorded call stores a nil
tuple in place of the keyword pair, the caller's keyword tuple comes back
untouched and not deep-frozen, and its list value can still be mutated
afterwards; only the positional arguments are deep-frozen before storing.
The source rebinds `kwargs` to a fresh nil slice before its freeze loop,
contradicting the claim and the package's own doc comment ("Arguments to
go call are frozen"); the sibling source variant freezes the caller's
keyword tuples at the same place. -/
theorem go_kwargs_not_frozen_at_failing_input :
    group_go (NewGroup false 0 .inf 0) [.builtin 0, .int 5]
        [.tuple [.str "x", .list false [.int 1]]] =
      .ok ⟨Group.mk false false 0 .inf 0
            [⟨.builtin 0, [.int 5], [.tuple []]⟩],
           .none, [.builtin 0, .int 5],
           [.tuple [.str "x", .list false [.int 1]]]⟩ ∧
    allFrozen [.tuple [.str "x", .list false [.int 1]]] = false ∧
    listAppend (.list false [.int 1]) (.int 2) =
      .ok (.list false [.int 1, .int 2]) :=
  ⟨rfl, rfl, rfl⟩

/-- C5: when the bound context is already cancelled, `go` on an unfrozen
group with a callable first argument succeeds with `None` and registers
nothing — the group comes back unchanged, so a later `wait` simply sees
fewer effective tasks. -/
theorem go_on_cancelled_context_is_silent_noop
    (g : Group) (fn : Value) (rest kwargs : List Value)
    (hfr : g.frozen = false) (hctx : g.ctxCancelled = true)
    (hcall : fn.isCallable = true) :
    group_go g (fn :: rest) kwargs =
      .ok ⟨g, .none, freezeList (fn :: rest), kwargs⟩ := by
  simp [group_go, hcall, hfr, hctx]

/-- Witness for C5: registering on a cancelled-context group returns `None`,
leaves the call list empty and the caller's keyword values untouched. -/
theorem go_on_cancelled_context_is_silent_noop_witness :
    group_go (NewGroup true 0 .inf 0) [.builtin 0, .int 3]
        [.tuple [.str "k", .int 9]] =
      .ok ⟨NewGroup true 0 .inf 0, .none, [.builtin 0, .int 3],
           [.tuple [.str "k", .int 9]]⟩ :=
  go_on_cancelled_context_is_silent_noop (NewGroup true 0 .inf 0)
    (.builtin 0) [.int 3] [.tuple [.str "k", .int 9]] rfl rfl rfl

/-- C10 counterexample: on a cancelled-context group, `go` with a keyword
argument holding a mutable list leaves that caller value untouched and not
deep-frozen — the silent no-op does not make every argument value
immutable, refuting the claim as stated. -/
theorem go_cancelled_kwargs_unfrozen_counterexample :
    group_go (NewGroup true 0 .inf 0) [.builtin 0]
        [.tuple [.str "x", .list false [.int 1]]] =
      .ok ⟨NewGroup true 0 .inf 0, .none, [.builtin 0],
           [.tuple [.str "x", .list false [.int 1]]]⟩ ∧
    allFrozen [.tuple [.str "x", .list false [.int 1]]] = false :=
  ⟨rfl, rfl⟩

/-- C10 (amended): even on the silent no-op path (context already
cancelled at `go` time), the positional argument values were frozen before
the cancellation check — the caller's args tuple comes back deep-frozen
although nothing was registered — while the caller's keyword argument
values are left untouched (the source rebinds `kwargs` to a fresh nil
slice before its freeze loop). -/
theorem go_freezes_positional_args_even_when_cancelled
    (g : Group) (fn : Value) (rest kwargs : List Value)
    (hfr : g.frozen = false) (hctx : g.ctxCancelled = true)
    (hcall : fn.isCallable = true) :
    ∃ r : GoResult, group_go g (fn :: rest) kwargs = .ok r ∧
      r.g.calls = g.calls ∧
      r.callerArgs = freezeList (fn :: rest) ∧
      allFrozen r.callerArgs = true ∧
      r.callerKwargs = kwargs := by
  refine ⟨⟨g, .none, freezeList (fn :: rest), kwargs⟩, ?_, rfl, rfl,
    freezeList_allFrozen _, rfl⟩
  simp [group_go, hcall, hfr, hctx]

/-- Witness for C10 (amended): on a cancelled-context group, the caller's
mutable positional list argument comes back deep-frozen while no call is
registered and the keyword values are returned as passed. -/
theorem go_freezes_positional_args_even_when_cancelled_witness :
    ∃ r : GoResult,
      group_go (NewGroup true 0 .inf 0)
          [.builtin 0, .list false [.int 1]]
          [.tuple [.str "k", .int 9]] = .ok r ∧
      r.g.calls = (NewGroup true 0 .inf 0).calls ∧
      r.callerArgs = freezeList [.builtin 0, .list false [.int 1]] ∧
      allFrozen r.callerArgs = true ∧
      r.callerKwargs = [.tuple [.str "k", .int 9]] :=
  go_freezes_positional_args_even_when_cancelled (NewGroup true 0 .inf 0)
    (.builtin 0) [.list false [.int 1]] [.tuple [.str "k", .int 9]]
    rfl rfl rfl

/-- C9 counterexample: the duration string "0s" parses to the zero
interval, yet `Make` accepts it — `rate.Every` maps non-positive intervals
to the infinite rate instead of rejecting the construction. -/
theorem make_accepts_zero_interval_counterexample :
    parseDuration "0s" = .ok 0 ∧
    rateEvery 0 = .inf ∧
    Make false 0 "0s" 0 = .ok (NewGroup false 0 .inf 0) :=
  ⟨rfl, rfl, rfl⟩

/-- C9 (amended): a non-empty `every` string that fails to parse is a
construction-time error — the parse error is returned from `Make` — while
a string parsing to any duration `d` is accepted, the group being built
with `rate.Every d`; for `d ≤ 0` that is the unlimited rate rather than a
rejection. -/
theorem make_duration_parse_behaviour
    (cc : Bool) (n burst : Int) (every : String) (he : every ≠ "") :
    (∀ e, parseDuration every = .error e → Make cc n every burst = .error e) ∧
    (∀ d, parseDuration every = .ok d →
      Make cc n every burst = .ok (NewGroup cc n (rateEvery d) burst)) ∧
    (∀ d : Int, d ≤ 0 → rateEvery d = .inf) := by
  refine ⟨?_, ?_, ?_⟩
  · intro e hp
    simp [Make, he, hp]
  · intro d hp
    simp [Make, he, hp]
  · intro d hd
    simp [rateEvery, hd]

/-- Witness for C9 (amended): "abc" fails to parse and `Make` returns the
parse error; "10ms" parses and `Make` builds the group with its rate. -/
theorem make_duration_parse_behaviour_witness :
    Make false 0 "abc" 0 = .error "time: invalid duration \"abc\"" ∧
    Make false 0 "10ms" 0 = .ok (NewGroup false 0 (rateEvery 10000000) 0) :=
  ⟨(make_duration_parse_behaviour false 0 0 "abc" (by decide)).1 _ rfl,
   (make_duration_parse_behaviour false 0 0 "10ms" (by decide)).2.1 _ rfl⟩

end Starlarkgroup
